import Mathlib

/-!
Verification of the DNREC shellfish survey map generators
(`build_geojson.py` for clamming sites, `build_geojson_crabbing.py` for
crabbing sites) against their design specification.

The two scripts are embedded shallowly:

* Python string operations (str.strip, str.split, str.join, str.replace)
  are modelled as structurally recursive functions over `String.data`,
  so that they both evaluate on concrete inputs and support induction.
* The Python dict used for the geocode cache is modelled as an
  insertion-ordered association list with dict-assignment semantics.
* The MD5 key derivation (an external library call) is abstracted as a
  parameter `md5hex : String -> String`; every theorem quantifies over it.
* The Nominatim HTTP client is abstracted as an oracle
  `net : String -> Except String (Option RawHit)`: `.error` is a
  transport/HTTP failure (requests exception), `.ok none` an empty result
  list, `.ok (some h)` the first-ranked hit. Coordinates are rationals.
* Each resolution step additionally returns the list of queries that were
  sent over the network, and the main loops return an event trace
  (`Ev.netCall` / `Ev.sleep`) recording network calls and the
  `time.sleep(1.1)` calls, in execution order.
* File I/O: the cache file write that ends a normal run is modelled in
  `run_main`; an uncaught exception (propagating through the `Except`
  monad) skips it, exactly as in the scripts.  The in-memory cache that a
  failing run abandons is never observed and is not modelled past the
  failure point.
-/

namespace Shellfish

/-! ### Python string primitives, modelled on `String.data` -/

/-- Python `str.strip()`: remove leading and trailing whitespace. -/
def py_strip (s : String) : String :=
  ⟨(((s.data.dropWhile Char.isWhitespace).reverse).dropWhile Char.isWhitespace).reverse⟩

/-- Helper for Python `str.split()` with no argument: split on runs of
whitespace, discarding empty pieces.  `acc` is the current (reversed) run
of non-whitespace characters. -/
def splitWsAux : List Char → List Char → List (List Char)
  | [], acc => if acc = [] then [] else [acc.reverse]
  | c :: rest, acc =>
    if c.isWhitespace then
      if acc = [] then splitWsAux rest [] else acc.reverse :: splitWsAux rest []
    else splitWsAux rest (c :: acc)

/-- Python `s.split()` (no separator argument). -/
def py_split (s : String) : List String := (splitWsAux s.data []).map (fun l => ⟨l⟩)

/-- Python `" ".join(ts)`. -/
def joinSpace : List String → String
  | [] => ""
  | [t] => t
  | t :: rest => t ++ " " ++ joinSpace rest

/-- The whitespace normalization `" ".join(c.split())` used by the
candidate de-duplication loop. -/
def normalize_ws (s : String) : String := joinSpace (py_split s)

/-- Fuel-indexed worker for Python `str.replace` (replace every
non-overlapping occurrence, scanning left to right).  One unit of fuel is
spent per step; each step consumes at least one character, so
`s.length` fuel always suffices. -/
def replace_go (pat rep : List Char) : Nat → List Char → List Char
  | _, [] => []
  | 0, s => s
  | Nat.succ n, c :: rest =>
    if pat ≠ [] ∧ (c :: rest).take pat.length = pat then
      rep ++ replace_go pat rep n ((c :: rest).drop pat.length)
    else c :: replace_go pat rep n rest

/-- Python `s.replace(pat, rep)`. -/
def py_replace (s pat rep : String) : String :=
  ⟨replace_go pat.data rep.data s.data.length s.data⟩

/-! ### Python dict primitives (insertion-ordered association list) -/

/-- Python `cache[k]` / `k in cache`: first binding of `k`, if any. -/
def dictGet {α : Type} (k : String) : List (String × α) → Option α
  | [] => none
  | (k₁, v) :: rest => if k₁ = k then some v else dictGet k rest

/-- Python `cache[k] = v`: overwrite in place if the key is present,
otherwise append, preserving insertion order. -/
def dictSet {α : Type} (c : List (String × α)) (k : String) (v : α) :
    List (String × α) :=
  if (dictGet k c).isSome then c.map (fun p => if p.1 = k then (k, v) else p)
  else c ++ [(k, v)]

/-! ### Data model -/

/-- The first element of the JSON array returned by the Nominatim search
endpoint, after the `float(..)` conversions of its `lat`/`lon` fields. -/
structure RawHit where
  lat : ℚ
  lon : ℚ
  display_name : String
deriving DecidableEq

/-- Cached geocode result of the clamming script (`build_geojson.py`):
latitude, longitude, display name. -/
structure GeoResult where
  lat : ℚ
  lon : ℚ
  display_name : String
deriving DecidableEq

/-- Cached geocode result of the crabbing script
(`build_geojson_crabbing.py`): additionally records which candidate query
produced the hit. -/
structure CrabResult where
  lat : ℚ
  lon : ℚ
  display_name : String
  query_used : String
deriving DecidableEq

/-- Cache of the clamming script: hash key to result-or-None. -/
abbrev ClamCache := List (String × Option GeoResult)

/-- Cache of the crabbing script: hash key to result-or-None. -/
abbrev CrabCache := List (String × Option CrabResult)

/-- The network oracle: behaviour of one Nominatim request for a query.
`.error` models a transport/HTTP failure raised by `raise_for_status` or
the request itself; `.ok none` an empty JSON result list; `.ok (some h)`
a first-ranked hit. -/
abbrev Net := String → Except String (Option RawHit)

/-- A CSV cell of the optional manual `lat`/`lon` columns: missing
(`NaN`), parseable as a number, or present but malformed (so that
`float(..)` raises). -/
inductive Cell
  | na
  | num (q : ℚ)
  | bad
deriving DecidableEq

/-- One input row.  `latc`/`lonc` are only read by the crabbing script,
and only when the table has `lat`/`lon` columns. -/
structure Row where
  zone_id : String
  zone_name : String
  site_name : String
  geocode_name : String
  latc : Cell
  lonc : Cell
deriving DecidableEq

/-- A GeoJSON geometry: a polygon (list of rings) or a point, with
coordinates in [longitude, latitude] order. -/
inductive Geometry
  | polygon (rings : List (List (ℚ × ℚ)))
  | point (c : ℚ × ℚ)
deriving DecidableEq

/-- An output feature: the three identifying properties shared by the
polygon and point features, the remaining property (either
("polygon_id", "A") or ("feature_type", "site_point")), and a geometry. -/
structure Feature where
  zone_id : String
  zone_name : String
  site_name : String
  extra : String × String
  geometry : Geometry
deriving DecidableEq

/-- Observable events of a run, in execution order: a network request to
the geocoding provider, or a `time.sleep` of the given many seconds. -/
inductive Ev
  | netCall (q : String)
  | sleep (seconds : ℚ)
deriving DecidableEq

/-! ### build_geojson.py (clamming) -/

/-- Python function `geocode(query, cache)`: key is the MD5 hex digest of the query; on a
cache hit return the cached value (result or None); otherwise perform one
network request, cache what it returns (None for an empty result list),
and return it.  The returned list records the queries sent over the
network (empty on a cache hit). -/
def geocode (md5hex : String → String) (net : Net) (query : String)
    (cache : ClamCache) :
    Except String (Option GeoResult × ClamCache × List String) :=
  let key := md5hex query
  match dictGet key cache with
  | some v => .ok (v, cache, [])
  | none =>
    match net query with
    | .error e => .error e
    | .ok none => .ok (none, dictSet cache key none, [query])
    | .ok (some h) =>
      let out : GeoResult := ⟨h.lat, h.lon, h.display_name⟩
      .ok (some out, dictSet cache key (some out), [query])

/-- Python function `square_polygon(lat, lon, dlat, dlon)`: five [lon, lat] points,
counter-clockwise, first equal to last. -/
def square_polygon (lat lon dlat dlon : ℚ) : List (ℚ × ℚ) :=
  [(lon - dlon, lat - dlat),
   (lon + dlon, lat - dlat),
   (lon + dlon, lat + dlat),
   (lon - dlon, lat + dlat),
   (lon - dlon, lat - dlat)]

/-- The polygon builder `square_polygon` at its default arguments dlat=0.01, dlon=0.015. -/
def square_polygon_d (lat lon : ℚ) : List (ℚ × ℚ) :=
  square_polygon lat lon (1/100) (15/1000)

/-- The two features appended for a resolved site: the placeholder
polygon, then the point marker, both carrying the same zone and site
properties. -/
def row_features (zone_id zone_name site_name : String) (lat lon : ℚ) :
    List Feature :=
  [{ zone_id := zone_id, zone_name := zone_name, site_name := site_name,
     extra := ("polygon_id", "A"),
     geometry := Geometry.polygon [square_polygon_d lat lon] },
   { zone_id := zone_id, zone_name := zone_name, site_name := site_name,
     extra := ("feature_type", "site_point"),
     geometry := Geometry.point (lon, lat) }]

/-- The row loop of `build_geojson.py`: per row, build the single query
"{geocode_name}, Delaware, USA", geocode it, sleep 1.1 seconds, skip the
row if unresolved, otherwise append the two features. -/
def clam_main_loop (md5hex : String → String) (net : Net) :
    List Row → ClamCache →
    Except String (List Feature × ClamCache × List Ev)
  | [], cache => .ok ([], cache, [])
  | r :: rs, cache =>
    let zone_id := py_strip r.zone_id
    let zone_name := py_strip r.zone_name
    let site_name := py_strip r.site_name
    let geocode_name := py_strip r.geocode_name
    let query := geocode_name ++ ", Delaware, USA"
    match geocode md5hex net query cache with
    | .error e => .error e
    | .ok (result, cache₁, qs) =>
      let evs := qs.map Ev.netCall ++ [Ev.sleep (11/10)]
      let fs := match result with
        | none => []
        | some res => row_features zone_id zone_name site_name res.lat res.lon
      match clam_main_loop md5hex net rs cache₁ with
      | .error e => .error e
      | .ok (fs₁, cache₂, evs₁) => .ok (fs ++ fs₁, cache₂, evs ++ evs₁)

/-! ### build_geojson_crabbing.py (crabbing) -/

/-- Python function `cache_key(query, extra)`: MD5 hex digest of "query|extra". -/
def cache_key (md5hex : String → String) (query extra : String) : String :=
  md5hex (query ++ "|" ++ extra)

/-- Python function `geocode_with_fallbacks(candidates, cache)`: for each candidate in
order, strip it and skip it if blank; on a cache hit return the cached
value (result or None) at once; otherwise perform one network request,
cache None and continue on an empty result, or cache and return the hit.
The returned list records the queries sent over the network, in order. -/
def geocode_with_fallbacks (md5hex : String → String) (net : Net) :
    List String → CrabCache →
    Except String (Option CrabResult × CrabCache × List String)
  | [], cache => .ok (none, cache, [])
  | q :: rest, cache =>
    let q₁ := py_strip q
    if q₁ = "" then geocode_with_fallbacks md5hex net rest cache
    else
      let k := cache_key md5hex q₁ "DE_VIEWBOX_US"
      match dictGet k cache with
      | some v => .ok (v, cache, [])
      | none =>
        match net q₁ with
        | .error e => .error e
        | .ok none =>
          match geocode_with_fallbacks md5hex net rest (dictSet cache k none) with
          | .error e => .error e
          | .ok (res, cache₁, t) => .ok (res, cache₁, q₁ :: t)
        | .ok (some h) =>
          let out : CrabResult := ⟨h.lat, h.lon, h.display_name, q₁⟩
          .ok (some out, dictSet cache k (some out), [q₁])

/-- The candidate list of `build_candidates` before de-duplication, in
emission order: the stripped geocode name, the geocode name with the DE
and Delaware qualifiers, the site name with the same qualifiers, then the
Pier/Bridge-stripped variants. -/
def raw_candidates (geocode_name site_name : String) : List String :=
  let base := py_strip geocode_name
  [base,
   base ++ ", DE",
   base ++ ", Delaware",
   site_name ++ ", DE",
   site_name ++ ", Delaware",
   py_strip (py_replace base " Pier" ""),
   py_strip (py_replace base " Bridge" ""),
   py_strip (py_replace site_name " Pier" ""),
   py_strip (py_replace site_name " Bridge" ""),
   py_strip (py_replace (py_replace site_name " Pier" "") " Bridge" "") ++ ", DE"]

/-- The de-duplication loop of `build_candidates`: normalize whitespace,
drop empties and anything already seen, preserving first-seen order. -/
def dedup_aux : List String → List String → List String
  | _, [] => []
  | seen, c :: rest =>
    let c₂ := normalize_ws c
    if c₂ ≠ "" ∧ c₂ ∉ seen then c₂ :: dedup_aux (c₂ :: seen) rest
    else dedup_aux seen rest

/-- Python function `build_candidates(geocode_name, site_name)`. -/
def build_candidates (geocode_name site_name : String) : List String :=
  dedup_aux [] (raw_candidates geocode_name site_name)

/-- The manual-coordinate extraction at the top of the crabbing row loop:
requires the lat/lon columns to exist and both cells to be non-NaN and
parseable; a `float(..)` failure is caught and treated as absence. -/
def manual_coords : Bool → Cell → Cell → Option (ℚ × ℚ)
  | false, _, _ => none
  | true, latc, lonc =>
    if latc ≠ Cell.na ∧ lonc ≠ Cell.na then
      match latc, lonc with
      | Cell.num a, Cell.num b => some (a, b)
      | _, _ => none
    else none

/-- One iteration of the crabbing row loop: use manual coordinates when
valid, otherwise resolve through the fallback chain, sleep 1.1 seconds,
and skip the row or append its two features. -/
def process_row (md5hex : String → String) (net : Net) (has_latlon : Bool)
    (r : Row) (cache : CrabCache) :
    Except String (List Feature × CrabCache × List Ev) :=
  let zone_id := py_strip r.zone_id
  let zone_name := py_strip r.zone_name
  let site_name := py_strip r.site_name
  let geocode_name := py_strip r.geocode_name
  match manual_coords has_latlon r.latc r.lonc with
  | some (lat, lon) =>
    .ok (row_features zone_id zone_name site_name lat lon, cache, [])
  | none =>
    let candidates := build_candidates geocode_name site_name
    match geocode_with_fallbacks md5hex net candidates cache with
    | .error e => .error e
    | .ok (result, cache₁, qs) =>
      let evs := qs.map Ev.netCall ++ [Ev.sleep (11/10)]
      match result with
      | none => .ok ([], cache₁, evs)
      | some res =>
        .ok (row_features zone_id zone_name site_name res.lat res.lon,
             cache₁, evs)

/-- The crabbing row loop over the whole table. -/
def main_loop (md5hex : String → String) (net : Net) (has_latlon : Bool) :
    List Row → CrabCache →
    Except String (List Feature × CrabCache × List Ev)
  | [], cache => .ok ([], cache, [])
  | r :: rs, cache =>
    match process_row md5hex net has_latlon r cache with
    | .error e => .error e
    | .ok (fs, cache₁, evs) =>
      match main_loop md5hex net has_latlon rs cache₁ with
      | .error e => .error e
      | .ok (fs₁, cache₂, evs₁) => .ok (fs ++ fs₁, cache₂, evs ++ evs₁)

/-- A whole crabbing run, including the final `save_cache`: `file0` is
the prior content of the persisted cache file; on normal completion the
accumulated cache is written over it, while an uncaught exception leaves
the file untouched and propagates. -/
def run_main (md5hex : String → String) (net : Net) (has_latlon : Bool)
    (rows : List Row) (cache0 : CrabCache) (file0 : Option CrabCache) :
    Option CrabCache × Except String (List Feature × List Ev) :=
  match main_loop md5hex net has_latlon rows cache0 with
  | .error e => (file0, .error e)
  | .ok (fs, cache, evs) => (some cache, .ok (fs, evs))

/-! ### Derived observations used by the statements -/

/-- The first candidate that the fallback loop does not skip as blank
(already stripped). -/
def first_nonblank : List String → Option String
  | [] => none
  | q :: rest =>
    if py_strip q = "" then first_nonblank rest else some (py_strip q)

/-- The query of the first network request the fallback loop would issue:
the first non-blank candidate, provided its key is not cached (a cache
hit ends the loop before any request). -/
def first_uncached (md5hex : String → String) :
    List String → CrabCache → Option String
  | [], _ => none
  | q :: rest, cache =>
    let q₁ := py_strip q
    if q₁ = "" then first_uncached md5hex rest cache
    else if (dictGet (cache_key md5hex q₁ "DE_VIEWBOX_US") cache).isSome then none
    else some q₁

/-- The cache value the crabbing script stores for query `q` when the
network returns `d`. -/
def mkVal (q : String) : Option RawHit → Option CrabResult
  | none => none
  | some h => some ⟨h.lat, h.lon, h.display_name, q⟩

/-- Every binding of `c` survives, with its value, into `c₁`. -/
def cacheExtends {α : Type} (c c₁ : List (String × α)) : Prop :=
  ∀ k v, dictGet k c = some v → dictGet k c₁ = some v

/-- Every binding of `c₁` was already in `c` with the same value, or is
for a key previously absent: no overwrites. -/
def addsOnly {α : Type} (c c₁ : List (String × α)) : Prop :=
  ∀ k w, dictGet k c₁ = some w → dictGet k c = some w ∨ dictGet k c = none

/-- What one row may contribute to the feature list: nothing, or exactly
the polygon-then-point pair for its (stripped) identifying properties. -/
def perRowOk (r : Row) (f : List Feature) : Prop :=
  f = [] ∨ ∃ la lo, f = row_features (py_strip r.zone_id)
    (py_strip r.zone_name) (py_strip r.site_name) la lo

/-! ### Concrete fixtures used to evaluate the statements -/

/-- A concrete key-derivation instance (the statements quantify over all
of them). -/
def idHash : String → String := fun s => s

/-- A provider that never finds anything. -/
def netNone : Net := fun _ => .ok none

/-- A provider that knows only the candidate "A, DE" and reports an empty
result list for "A". -/
def net3 : Net := fun q =>
  if q = "A" then .ok none
  else if q = "A, DE" then .ok (some ⟨39, -753/10, "Dover, Delaware"⟩)
  else .ok none

/-- A provider whose requests all fail with a transport error. -/
def netErr : Net := fun _ => .error "connection refused"

/-- A row without manual coordinates whose geocode name is "A". -/
def r3 : Row := ⟨"Z1", "North Bay", "B", "A", Cell.na, Cell.na⟩

/-- A row with valid manual coordinates. -/
def r5a : Row :=
  ⟨"Z1", "North Bay", "Smith Landing", "Smith Pier", Cell.num 39,
   Cell.num (-753/10)⟩

/-- A row whose manual latitude cell is present but malformed. -/
def r5b : Row :=
  ⟨"Z1", "North Bay", "Smith Landing", "Smith Pier", Cell.bad, Cell.num 2⟩

/-- A cache that already holds a hit for the key of candidate "A". -/
def cacheHit : CrabCache :=
  [("A|DE_VIEWBOX_US", some ⟨39, -753/10, "Dover, Delaware", "A"⟩)]

/-- A provider that misses "A", hits "A, DE", misses "X", and fails with
a transport error on every other query: it lets one row resolve and the
next row fail mid-chain, after a not-found attempt. -/
def netC9 : Net := fun q =>
  if q = "A" then .ok none
  else if q = "A, DE" then .ok (some ⟨39, -753/10, "Dover, Delaware"⟩)
  else if q = "X" then .ok none
  else .error "connection refused"

/-- A second row without manual coordinates, geocode name "X". -/
def rX : Row := ⟨"Z2", "South Bay", "Y", "X", Cell.na, Cell.na⟩

/-! ### Lemmas about the dict model -/

@[simp] theorem dictGet_nil {α : Type} (k : String) :
    dictGet (α := α) k [] = none := rfl

@[simp] theorem dictGet_cons {α : Type} (k k₁ : String) (v : α)
    (rest : List (String × α)) :
    dictGet k ((k₁, v) :: rest) = if k₁ = k then some v else dictGet k rest := rfl

theorem dictGet_map_set {α : Type} (k : String) (v : α) :
    ∀ c : List (String × α), (dictGet k c).isSome →
      dictGet k (c.map fun p => if p.1 = k then (k, v) else p) = some v := by
  intro c
  induction c with
  | nil => intro h; simp at h
  | cons p rest ih =>
    intro h
    obtain ⟨k₁, w⟩ := p
    by_cases hk : k₁ = k
    · subst hk; simp
    · simp only [dictGet_cons, if_neg hk] at h
      simp only [List.map_cons, if_neg hk, dictGet_cons]
      exact ih h

theorem dictGet_append_self {α : Type} (k : String) (v : α) :
    ∀ c : List (String × α), dictGet k c = none →
      dictGet k (c ++ [(k, v)]) = some v := by
  intro c
  induction c with
  | nil => intro _; simp
  | cons p rest ih =>
    intro h
    obtain ⟨k₁, w⟩ := p
    by_cases hk : k₁ = k
    · simp [hk] at h
    · simp only [dictGet_cons, if_neg hk] at h
      simpa only [List.cons_append, dictGet_cons, if_neg hk] using ih h

theorem dictGet_dictSet_self {α : Type} (c : List (String × α)) (k : String) (v : α) :
    dictGet k (dictSet c k v) = some v := by
  unfold dictSet
  by_cases h : (dictGet k c).isSome
  · simpa [h] using dictGet_map_set k v c h
  · have hn : dictGet k c = none := by
      cases hg : dictGet k c with
      | none => rfl
      | some w => rw [hg] at h; simp at h
    simpa [h] using dictGet_append_self k v c hn

theorem dictGet_map_set_ne {α : Type} (k k₁ : String) (v : α) (hne : k₁ ≠ k) :
    ∀ c : List (String × α),
      dictGet k₁ (c.map fun p => if p.1 = k then (k, v) else p) = dictGet k₁ c := by
  intro c
  induction c with
  | nil => simp
  | cons p rest ih =>
    obtain ⟨k₂, w⟩ := p
    by_cases hk : k₂ = k
    · subst hk
      have hne₂ : k₂ ≠ k₁ := fun h => hne h.symm
      simp [hne₂, ih]
    · simp only [List.map_cons, if_neg hk]
      by_cases hk₁ : k₂ = k₁
      · simp [hk₁]
      · simp [hk₁, ih]

theorem dictGet_append_ne {α : Type} (k k₁ : String) (v : α) (hne : k₁ ≠ k) :
    ∀ c : List (String × α), dictGet k₁ (c ++ [(k, v)]) = dictGet k₁ c := by
  intro c
  induction c with
  | nil =>
    have hne₂ : k ≠ k₁ := fun h => hne h.symm
    simp [hne₂]
  | cons p rest ih =>
    obtain ⟨k₂, w⟩ := p
    by_cases hk₁ : k₂ = k₁
    · simp [hk₁]
    · simp [hk₁, ih]

theorem dictGet_dictSet_ne {α : Type} (c : List (String × α)) (k k₁ : String)
    (v : α) (hne : k₁ ≠ k) :
    dictGet k₁ (dictSet c k v) = dictGet k₁ c := by
  unfold dictSet
  by_cases h : (dictGet k c).isSome
  · simpa [h] using dictGet_map_set_ne k k₁ v hne c
  · simpa [h] using dictGet_append_ne k k₁ v hne c

theorem cacheExtends_refl {α : Type} (c : List (String × α)) : cacheExtends c c :=
  fun _ _ h => h

theorem cacheExtends_trans {α : Type} {a b c : List (String × α)}
    (h₁ : cacheExtends a b) (h₂ : cacheExtends b c) : cacheExtends a c :=
  fun k v hv => h₂ k v (h₁ k v hv)

theorem dictSet_extends {α : Type} {c : List (String × α)} {k : String} (v : α)
    (h : dictGet k c = none) : cacheExtends c (dictSet c k v) := by
  intro k₁ w hw
  by_cases hk : k₁ = k
  · subst hk; rw [h] at hw; cases hw
  · rw [dictGet_dictSet_ne c k k₁ v hk]; exact hw

theorem dictGet_dictSet_none {α : Type} {c : List (String × α)} {k k₁ : String}
    {v : α} (h : dictGet k₁ (dictSet c k v) = none) : dictGet k₁ c = none := by
  by_cases hk : k₁ = k
  · subst hk; rw [dictGet_dictSet_self] at h; cases h
  · rw [dictGet_dictSet_ne c k k₁ v hk] at h; exact h

theorem extends_addsOnly {α : Type} {c c₁ : List (String × α)}
    (h : cacheExtends c c₁) : addsOnly c c₁ := by
  intro k w hw
  cases hg : dictGet k c with
  | none => exact Or.inr rfl
  | some v =>
    have hv := h k v hg
    rw [hv] at hw
    injection hw with hvw
    subst hvw
    exact Or.inl rfl

/-! ### Cache evolution of the resolvers and the row loops -/

theorem fallbacks_extends (md5hex : String → String) (net : Net) :
    ∀ (cands : List String) (cache : CrabCache) (res : Option CrabResult)
      (cache₁ : CrabCache) (qs : List String),
      geocode_with_fallbacks md5hex net cands cache = .ok (res, cache₁, qs) →
      cacheExtends cache cache₁ := by
  intro cands
  induction cands with
  | nil =>
    intro cache res cache₁ qs h
    simp only [geocode_with_fallbacks, Except.ok.injEq, Prod.mk.injEq] at h
    obtain ⟨-, rfl, -⟩ := h
    exact cacheExtends_refl cache
  | cons q rest ih =>
    intro cache res cache₁ qs h
    simp only [geocode_with_fallbacks] at h
    split at h
    · exact ih cache res cache₁ qs h
    · split at h
      · next v hv =>
        simp only [Except.ok.injEq, Prod.mk.injEq] at h
        obtain ⟨-, rfl, -⟩ := h
        exact cacheExtends_refl cache
      · next hnone =>
        split at h
        · exact absurd h (by simp)
        · next hnet =>
          split at h
          · exact absurd h (by simp)
          · next res₂ cache₂ t hrec =>
            simp only [Except.ok.injEq, Prod.mk.injEq] at h
            obtain ⟨-, rfl, -⟩ := h
            exact cacheExtends_trans (dictSet_extends _ hnone)
              (ih _ res₂ _ t hrec)
        · next h₂ hnet =>
          simp only [Except.ok.injEq, Prod.mk.injEq] at h
          obtain ⟨-, rfl, -⟩ := h
          exact dictSet_extends _ hnone

/-- Full characterization of one run of the fallback resolver used by
claim C2: the attempted queries are uncached candidates taken in order,
each attempt is cached with exactly what the client returned, every
attempt before the last returned "not found" (so a success ends the
run), and a returned record sits in the final cache under the key of the
candidate that produced it. -/
theorem fallbacks_run (md5hex : String → String) (net : Net) :
    ∀ (cands : List String) (cache : CrabCache) (res : Option CrabResult)
      (cache₁ : CrabCache) (qs : List String),
      geocode_with_fallbacks md5hex net cands cache = .ok (res, cache₁, qs) →
      List.Sublist qs (cands.map py_strip)
      ∧ (∀ q ∈ qs, dictGet (cache_key md5hex q "DE_VIEWBOX_US") cache = none)
      ∧ (∀ q ∈ qs, ∃ d, net q = .ok d ∧
          dictGet (cache_key md5hex q "DE_VIEWBOX_US") cache₁ = some (mkVal q d))
      ∧ (∀ q ∈ qs.dropLast, net q = .ok none)
      ∧ (∀ out, res = some out → ∃ c ∈ cands,
          dictGet (cache_key md5hex (py_strip c) "DE_VIEWBOX_US") cache₁ =
            some (some out)) := by
  intro cands
  induction cands with
  | nil =>
    intro cache res cache₁ qs h
    simp only [geocode_with_fallbacks, Except.ok.injEq, Prod.mk.injEq] at h
    obtain ⟨hres, rfl, hqs⟩ := h
    subst hqs
    refine ⟨List.nil_sublist _, by simp, by simp, by simp, ?_⟩
    intro out hout
    rw [← hres] at hout
    cases hout
  | cons q rest ih =>
    intro cache res cache₁ qs h
    simp only [geocode_with_fallbacks] at h
    split at h
    · next hq =>
      obtain ⟨s₁, s₂, s₃, s₄, s₅⟩ := ih cache res cache₁ qs h
      refine ⟨s₁.cons _, s₂, s₃, s₄, ?_⟩
      intro out hout
      obtain ⟨c, hc, hoc⟩ := s₅ out hout
      exact ⟨c, List.mem_cons_of_mem _ hc, hoc⟩
    · split at h
      · next v hv =>
        simp only [Except.ok.injEq, Prod.mk.injEq] at h
        obtain ⟨hres, rfl, hqs⟩ := h
        subst hqs
        refine ⟨List.nil_sublist _, by simp, by simp, by simp, ?_⟩
        intro out hout
        rw [← hres] at hout
        subst hout
        exact ⟨q, List.mem_cons_self _ _, hv⟩
      · next hnone =>
        split at h
        · exact absurd h (by simp)
        · next hnet =>
          split at h
          · exact absurd h (by simp)
          · next res₂ cache₂ t hrec =>
            simp only [Except.ok.injEq, Prod.mk.injEq] at h
            obtain ⟨hres, rfl, hqs⟩ := h
            subst hqs
            subst hres
            obtain ⟨s₁, s₂, s₃, s₄, s₅⟩ := ih _ res₂ _ t hrec
            have hext := fallbacks_extends md5hex net rest _ res₂ _ t hrec
            refine ⟨s₁.cons₂ _, ?_, ?_, ?_, ?_⟩
            · intro x hx
              rcases List.mem_cons.mp hx with hx | hx
              · subst hx; exact hnone
              · exact dictGet_dictSet_none (s₂ x hx)
            · intro x hx
              rcases List.mem_cons.mp hx with hx | hx
              · subst hx
                refine ⟨none, hnet, ?_⟩
                exact hext _ _ (dictGet_dictSet_self _ _ _)
              · exact s₃ x hx
            · intro x hx
              cases t with
              | nil => cases hx
              | cons a t₁ =>
                rcases List.mem_cons.mp hx with hx | hx
                · subst hx; exact hnet
                · exact s₄ x hx
            · intro out hout
              obtain ⟨c, hc, hoc⟩ := s₅ out hout
              exact ⟨c, List.mem_cons_of_mem _ hc, hoc⟩
        · next h₂ hnet =>
          simp only [Except.ok.injEq, Prod.mk.injEq] at h
          obtain ⟨hres, rfl, hqs⟩ := h
          subst hqs
          refine ⟨(List.nil_sublist _).cons₂ _, ?_, ?_, by simp, ?_⟩
          · intro x hx
            rcases List.mem_cons.mp hx with hx | hx
            · subst hx; exact hnone
            · cases hx
          · intro x hx
            rcases List.mem_cons.mp hx with hx | hx
            · subst hx
              exact ⟨some h₂, hnet, dictGet_dictSet_self _ _ _⟩
            · cases hx
          · intro out hout
            rw [← hres] at hout
            injection hout with hout₁
            subst hout₁
            exact ⟨q, List.mem_cons_self _ _, dictGet_dictSet_self _ _ _⟩

theorem geocode_extends (md5hex : String → String) (net : Net)
    (query : String) (cache : ClamCache) (res : Option GeoResult)
    (cache₁ : ClamCache) (qs : List String)
    (h : geocode md5hex net query cache = .ok (res, cache₁, qs)) :
    cacheExtends cache cache₁ := by
  simp only [geocode] at h
  split at h
  · next v hv =>
    simp only [Except.ok.injEq, Prod.mk.injEq] at h
    obtain ⟨-, rfl, -⟩ := h
    exact cacheExtends_refl cache
  · next hnone =>
    split at h
    · exact absurd h (by simp)
    · simp only [Except.ok.injEq, Prod.mk.injEq] at h
      obtain ⟨-, rfl, -⟩ := h
      exact dictSet_extends _ hnone
    · simp only [Except.ok.injEq, Prod.mk.injEq] at h
      obtain ⟨-, rfl, -⟩ := h
      exact dictSet_extends _ hnone

theorem process_row_extends (md5hex : String → String) (net : Net)
    (has_latlon : Bool) (r : Row) (cache : CrabCache) (fs : List Feature)
    (cache₁ : CrabCache) (evs : List Ev)
    (h : process_row md5hex net has_latlon r cache = .ok (fs, cache₁, evs)) :
    cacheExtends cache cache₁ := by
  simp only [process_row] at h
  split at h
  · simp only [Except.ok.injEq, Prod.mk.injEq] at h
    obtain ⟨-, rfl, -⟩ := h
    exact cacheExtends_refl cache
  · split at h
    · exact absurd h (by simp)
    · next result cache₂ qs hfb =>
      have hext := fallbacks_extends md5hex net _ cache result cache₂ qs hfb
      split at h <;>
        · simp only [Except.ok.injEq, Prod.mk.injEq] at h
          obtain ⟨-, rfl, -⟩ := h
          exact hext

/-- A transport error on the first network request of the fallback chain
propagates out of the resolver uncaught. -/
theorem fallbacks_error (md5hex : String → String) (net : Net) :
    ∀ (cands : List String) (cache : CrabCache) (q₀ : String) (e : String),
      first_uncached md5hex cands cache = some q₀ →
      net q₀ = .error e →
      geocode_with_fallbacks md5hex net cands cache = .error e := by
  intro cands
  induction cands with
  | nil => intro cache q₀ e hfu _; cases hfu
  | cons q rest ih =>
    intro cache q₀ e hfu hnet
    simp only [first_uncached] at hfu
    split at hfu
    · next hq =>
      simp only [geocode_with_fallbacks, if_pos hq]
      exact ih cache q₀ e hfu hnet
    · next hq =>
      split at hfu
      · cases hfu
      · next hsome =>
        injection hfu with hq₀
        subst hq₀
        have hnone : dictGet (cache_key md5hex (py_strip q) "DE_VIEWBOX_US")
            cache = none := by
          cases hg : dictGet (cache_key md5hex (py_strip q) "DE_VIEWBOX_US")
              cache with
          | none => rfl
          | some v => rw [hg] at hsome; simp at hsome
        simp only [geocode_with_fallbacks, if_neg hq, hnone, hnet]

/-- A failing resolver run owes its error to an actual network request:
there is no other source of exceptions in the fallback loop. -/
theorem fallbacks_error_src (md5hex : String → String) (net : Net) :
    ∀ (cands : List String) (cache : CrabCache) (e : String),
      geocode_with_fallbacks md5hex net cands cache = .error e →
      ∃ q, net q = .error e := by
  intro cands
  induction cands with
  | nil => intro cache e h; simp [geocode_with_fallbacks] at h
  | cons q rest ih =>
    intro cache e h
    simp only [geocode_with_fallbacks] at h
    split at h
    · exact ih cache e h
    · split at h
      · exact absurd h (by simp)
      · split at h
        · next e₁ hnet =>
          injection h with he
          subst he
          exact ⟨py_strip q, hnet⟩
        · next hnet =>
          split at h
          · next e₁ hrec =>
            injection h with he
            subst he
            exact ih _ e₁ hrec
          · exact absurd h (by simp)
        · exact absurd h (by simp)

/-- A failing crabbing row owes its error to an actual network request. -/
theorem process_row_error_src (md5hex : String → String) (net : Net)
    (has_latlon : Bool) (r : Row) (cache : CrabCache) (e : String)
    (h : process_row md5hex net has_latlon r cache = .error e) :
    ∃ q, net q = .error e := by
  simp only [process_row] at h
  split at h
  · exact absurd h (by simp)
  · split at h
    · next e₁ hfb =>
      injection h with he
      subst he
      exact fallbacks_error_src md5hex net _ cache e₁ hfb
    · next result cache₂ qs hfb =>
      split at h <;> exact absurd h (by simp)

/-- A failing crabbing run owes its error to an actual network request. -/
theorem main_loop_error_src (md5hex : String → String) (net : Net)
    (has_latlon : Bool) :
    ∀ (rows : List Row) (cache : CrabCache) (e : String),
      main_loop md5hex net has_latlon rows cache = .error e →
      ∃ q, net q = .error e := by
  intro rows
  induction rows with
  | nil => intro cache e h; simp [main_loop] at h
  | cons r rs ih =>
    intro cache e h
    simp only [main_loop] at h
    split at h
    · next e₁ hpr =>
      injection h with he
      subst he
      exact process_row_error_src md5hex net has_latlon r cache e₁ hpr
    · next fs₂ cache₂ evs₂ hpr =>
      split at h
      · next e₁ hrec =>
        injection h with he
        subst he
        exact ih cache₂ e₁ hrec
      · exact absurd h (by simp)

/-- If a prefix of the candidate chain is exhausted without success (the
attempt count equals the number of non-blank prefix candidates, so the
None result is exhaustion rather than a cached-None hit) and the chain
then errors on the remaining candidates from the accumulated cache, the
whole chain errors: a transport error after any number of not-found
attempts propagates out of the resolver. -/
theorem fallbacks_exhaust_append (md5hex : String → String) (net : Net) :
    ∀ (preC : List String) (cacheA cacheB : CrabCache) (qsA : List String)
      (restC : List String) (e : String),
      geocode_with_fallbacks md5hex net preC cacheA = .ok (none, cacheB, qsA) →
      qsA.length = (preC.filter (fun q => py_strip q ≠ "")).length →
      geocode_with_fallbacks md5hex net restC cacheB = .error e →
      geocode_with_fallbacks md5hex net (preC ++ restC) cacheA = .error e := by
  intro preC
  induction preC with
  | nil =>
    intro cacheA cacheB qsA restC e h₁ _ h₃
    simp only [geocode_with_fallbacks, Except.ok.injEq, Prod.mk.injEq] at h₁
    obtain ⟨-, rfl, -⟩ := h₁
    simpa using h₃
  | cons q pre₁ ih =>
    intro cacheA cacheB qsA restC e h₁ hlen h₃
    simp only [geocode_with_fallbacks] at h₁
    rw [List.cons_append]
    split at h₁
    · next hq =>
      simp only [geocode_with_fallbacks, if_pos hq]
      refine ih cacheA cacheB qsA restC e h₁ ?_ h₃
      rwa [List.filter_cons_of_neg (by simp [hq])] at hlen
    · next hq =>
      split at h₁
      · next v hv =>
        simp only [Except.ok.injEq, Prod.mk.injEq] at h₁
        obtain ⟨-, -, hqs⟩ := h₁
        rw [List.filter_cons_of_pos (by simp [hq]), ← hqs] at hlen
        simp at hlen
      · next hnone =>
        split at h₁
        · exact absurd h₁ (by simp)
        · next hnet =>
          split at h₁
          · exact absurd h₁ (by simp)
          · next res₂ cache₂ t hrec =>
            simp only [Except.ok.injEq, Prod.mk.injEq] at h₁
            obtain ⟨hres, rfl, hqs⟩ := h₁
            subst hres
            have hlen₂ : t.length =
                (pre₁.filter (fun q => py_strip q ≠ "")).length := by
              rw [List.filter_cons_of_pos (by simp [hq]), ← hqs] at hlen
              simpa using hlen
            have hrest := ih _ _ t restC e hrec hlen₂ h₃
            simp only [geocode_with_fallbacks, if_neg hq, hnone, hnet, hrest]
        · next h₂ hnet =>
          simp only [Except.ok.injEq, Prod.mk.injEq] at h₁
          obtain ⟨hres, -, -⟩ := h₁
          cases hres

/-- A prefix of rows that processes successfully, followed by a failing
remainder started from the accumulated cache, makes the whole run fail
with that error: a transport error on any later row propagates out of
the row loop. -/
theorem main_loop_append_error (md5hex : String → String) (net : Net)
    (has_latlon : Bool) :
    ∀ (pre rows₂ : List Row) (cache0 cache₁ : CrabCache) (fs₁ : List Feature)
      (evs₁ : List Ev) (e : String),
      main_loop md5hex net has_latlon pre cache0 = .ok (fs₁, cache₁, evs₁) →
      main_loop md5hex net has_latlon rows₂ cache₁ = .error e →
      main_loop md5hex net has_latlon (pre ++ rows₂) cache0 = .error e := by
  intro pre
  induction pre with
  | nil =>
    intro rows₂ cache0 cache₁ fs₁ evs₁ e h₁ h₂
    simp only [main_loop, Except.ok.injEq, Prod.mk.injEq] at h₁
    obtain ⟨-, rfl, -⟩ := h₁
    simpa using h₂
  | cons p pre₁ ih =>
    intro rows₂ cache0 cache₁ fs₁ evs₁ e h₁ h₂
    simp only [main_loop] at h₁
    rw [List.cons_append]
    split at h₁
    · exact absurd h₁ (by simp)
    · next f c₂ ev hpr =>
      split at h₁
      · exact absurd h₁ (by simp)
      · next f₃ c₃ ev₃ hrec =>
        simp only [Except.ok.injEq, Prod.mk.injEq] at h₁
        obtain ⟨-, rfl, -⟩ := h₁
        have hrest := ih rows₂ c₂ _ f₃ ev₃ e hrec h₂
        simp only [main_loop, hpr, hrest]

/-- The feature list one crabbing row contributes is empty or exactly its
polygon-point pair. -/
theorem process_row_shape (md5hex : String → String) (net : Net)
    (has_latlon : Bool) (r : Row) (cache : CrabCache) (fs : List Feature)
    (cache₁ : CrabCache) (evs : List Ev)
    (h : process_row md5hex net has_latlon r cache = .ok (fs, cache₁, evs)) :
    perRowOk r fs := by
  simp only [process_row] at h
  split at h
  · next lat lon hm =>
    simp only [Except.ok.injEq, Prod.mk.injEq] at h
    obtain ⟨rfl, -, -⟩ := h
    exact Or.inr ⟨lat, lon, rfl⟩
  · split at h
    · exact absurd h (by simp)
    · next result cache₂ qs hfb =>
      split at h
      · simp only [Except.ok.injEq, Prod.mk.injEq] at h
        obtain ⟨rfl, -, -⟩ := h
        exact Or.inl rfl
      · next res =>
        simp only [Except.ok.injEq, Prod.mk.injEq] at h
        obtain ⟨rfl, -, -⟩ := h
        exact Or.inr ⟨res.lat, res.lon, rfl⟩

/-- Shape of the whole crabbing feature list: one (possibly empty)
contribution per row, concatenated in row order, with total length twice
the number of resolved rows. -/
theorem main_loop_shape (md5hex : String → String) (net : Net)
    (has_latlon : Bool) :
    ∀ (rows : List Row) (cache : CrabCache) (fs : List Feature)
      (cache₁ : CrabCache) (evs : List Ev),
      main_loop md5hex net has_latlon rows cache = .ok (fs, cache₁, evs) →
      ∃ rf : List (List Feature), List.Forall₂ perRowOk rows rf
        ∧ fs = rf.flatten
        ∧ fs.length = 2 * rf.countP (fun l => !l.isEmpty) := by
  intro rows
  induction rows with
  | nil =>
    intro cache fs cache₁ evs h
    simp only [main_loop, Except.ok.injEq, Prod.mk.injEq] at h
    obtain ⟨rfl, -, -⟩ := h
    exact ⟨[], List.Forall₂.nil, rfl, by simp⟩
  | cons r rs ih =>
    intro cache fs cache₁ evs h
    simp only [main_loop] at h
    split at h
    · exact absurd h (by simp)
    · next fs₂ cache₂ evs₂ hpr =>
      split at h
      · exact absurd h (by simp)
      · next fs₃ cache₃ evs₃ hrec =>
        simp only [Except.ok.injEq, Prod.mk.injEq] at h
        obtain ⟨rfl, -, -⟩ := h
        obtain ⟨rf, hf, hflat, hlen⟩ := ih cache₂ fs₃ cache₃ evs₃ hrec
        refine ⟨fs₂ :: rf, List.Forall₂.cons
          (process_row_shape md5hex net has_latlon r cache fs₂ cache₂ evs₂ hpr)
          hf, by simp [hflat], ?_⟩
        rcases process_row_shape md5hex net has_latlon r cache fs₂ cache₂
            evs₂ hpr with hempty | ⟨la, lo, hrow⟩
        · subst hempty
          simpa [List.countP_cons] using hlen
        · subst hrow
          simp only [List.length_append, List.countP_cons, row_features,
            List.isEmpty_cons, Bool.not_false, if_pos]
          simp only [List.length_cons, List.length_nil]
          omega

/-- The feature list one clamming row contributes is empty or exactly its
polygon-point pair; shape of the whole clamming feature list. -/
theorem clam_loop_shape (md5hex : String → String) (net : Net) :
    ∀ (rows : List Row) (cache : ClamCache) (fs : List Feature)
      (cache₁ : ClamCache) (evs : List Ev),
      clam_main_loop md5hex net rows cache = .ok (fs, cache₁, evs) →
      ∃ rf : List (List Feature), List.Forall₂ perRowOk rows rf
        ∧ fs = rf.flatten
        ∧ fs.length = 2 * rf.countP (fun l => !l.isEmpty) := by
  intro rows
  induction rows with
  | nil =>
    intro cache fs cache₁ evs h
    simp only [clam_main_loop, Except.ok.injEq, Prod.mk.injEq] at h
    obtain ⟨rfl, -, -⟩ := h
    exact ⟨[], List.Forall₂.nil, rfl, by simp⟩
  | cons r rs ih =>
    intro cache fs cache₁ evs h
    simp only [clam_main_loop] at h
    split at h
    · exact absurd h (by simp)
    · next result cache₂ qs hgc =>
      split at h
      · exact absurd h (by simp)
      · next fs₃ cache₃ evs₃ hrec =>
        simp only [Except.ok.injEq, Prod.mk.injEq] at h
        obtain ⟨rfl, -, -⟩ := h
        obtain ⟨rf, hf, hflat, hlen⟩ := ih cache₂ fs₃ cache₃ evs₃ hrec
        have hshape : perRowOk r (match result with
            | none => []
            | some res => row_features (py_strip r.zone_id)
                (py_strip r.zone_name) (py_strip r.site_name) res.lat res.lon) := by
          cases result with
          | none => exact Or.inl rfl
          | some res => exact Or.inr ⟨res.lat, res.lon, rfl⟩
        cases result with
        | none =>
          refine ⟨[] :: rf, List.Forall₂.cons (Or.inl rfl) hf, by simp [hflat], ?_⟩
          simpa [List.countP_cons] using hlen
        | some res =>
          refine ⟨row_features (py_strip r.zone_id) (py_strip r.zone_name)
            (py_strip r.site_name) res.lat res.lon :: rf,
            List.Forall₂.cons (Or.inr ⟨res.lat, res.lon, rfl⟩) hf,
            by simp [hflat], ?_⟩
          simp only [List.length_append, List.countP_cons, row_features,
            List.isEmpty_cons, Bool.not_false, if_pos]
          simp only [List.length_cons, List.length_nil]
          omega

/-! ### Lemmas about the string primitives -/

theorem data_append (s t : String) : (s ++ t).data = s.data ++ t.data := rfl

theorem ne_empty_of_data {s : String} (hd : s.data ≠ []) : s ≠ "" := by
  intro he
  subst he
  exact hd rfl

theorem splitWsAux_mem_ne_nil :
    ∀ (cs acc : List Char) (t : List Char), t ∈ splitWsAux cs acc → t ≠ [] := by
  intro cs
  induction cs with
  | nil =>
    intro acc t ht
    simp only [splitWsAux] at ht
    split at ht
    · cases ht
    · next hacc =>
      rcases List.mem_singleton.mp ht with rfl
      simpa using hacc
  | cons c rest ih =>
    intro acc t ht
    simp only [splitWsAux] at ht
    split at ht
    · split at ht
      · exact ih [] t ht
      · next hacc =>
        rcases List.mem_cons.mp ht with rfl | ht
        · simpa using hacc
        · exact ih [] t ht
    · exact ih (c :: acc) t ht

theorem splitWsAux_mem_not_ws :
    ∀ (cs acc : List Char), (∀ ch ∈ acc, ch.isWhitespace = false) →
      ∀ t ∈ splitWsAux cs acc, ∀ ch ∈ t, ch.isWhitespace = false := by
  intro cs
  induction cs with
  | nil =>
    intro acc hacc t ht ch hch
    simp only [splitWsAux] at ht
    split at ht
    · cases ht
    · rcases List.mem_singleton.mp ht with rfl
      exact hacc ch (List.mem_reverse.mp hch)
  | cons c rest ih =>
    intro acc hacc t ht ch hch
    simp only [splitWsAux] at ht
    split at ht
    · split at ht
      · exact ih [] (by simp) t ht ch hch
      · rcases List.mem_cons.mp ht with rfl | ht
        · exact hacc ch (List.mem_reverse.mp hch)
        · exact ih [] (by simp) t ht ch hch
    · next hc =>
      refine ih (c :: acc) ?_ t ht ch hch
      intro x hx
      rcases List.mem_cons.mp hx with rfl | hx
      · exact Bool.eq_false_iff.mpr hc
      · exact hacc x hx

theorem splitWsAux_ne_nil_acc :
    ∀ (cs acc : List Char), acc ≠ [] → splitWsAux cs acc ≠ [] := by
  intro cs
  induction cs with
  | nil =>
    intro acc hacc
    simp only [splitWsAux, if_neg hacc]
    exact List.cons_ne_nil _ _
  | cons c rest ih =>
    intro acc hacc
    simp only [splitWsAux, if_neg hacc]
    split
    · exact List.cons_ne_nil _ _
    · exact ih (c :: acc) (List.cons_ne_nil _ _)

theorem splitWsAux_ne_nil :
    ∀ (cs acc : List Char) (ch : Char), ch ∈ cs → ch.isWhitespace = false →
      splitWsAux cs acc ≠ [] := by
  intro cs
  induction cs with
  | nil => intro acc ch hch _; cases hch
  | cons c rest ih =>
    intro acc ch hch hws
    simp only [splitWsAux]
    rcases List.mem_cons.mp hch with rfl | hch
    · rw [if_neg (by simp [hws])]
      exact splitWsAux_ne_nil_acc rest (ch :: acc) (List.cons_ne_nil _ _)
    · split
      · split
        · exact ih [] ch hch hws
        · exact List.cons_ne_nil _ _
      · exact splitWsAux_ne_nil_acc rest (c :: acc) (List.cons_ne_nil _ _)

theorem joinSpace_cons_data (t : String) (ts : List String) :
    ∃ rest : List Char, (joinSpace (t :: ts)).data = t.data ++ rest := by
  cases ts with
  | nil => exact ⟨[], by simp [joinSpace]⟩
  | cons u ts₁ =>
    refine ⟨(" " : String).data ++ (joinSpace (u :: ts₁)).data, ?_⟩
    show ((t ++ " ") ++ joinSpace (u :: ts₁)).data = _
    rw [data_append, data_append, List.append_assoc]

theorem normalize_ws_ne_empty {s : String} (hch : ∃ ch ∈ s.data, ch.isWhitespace = false) :
    normalize_ws s ≠ "" := by
  obtain ⟨ch, hmem, hws⟩ := hch
  have hsw : splitWsAux s.data [] ≠ [] := splitWsAux_ne_nil s.data [] ch hmem hws
  obtain ⟨tok, toks, heq⟩ := List.exists_cons_of_ne_nil hsw
  have htok : tok ≠ [] := splitWsAux_mem_ne_nil s.data [] tok (by rw [heq]; simp)
  have hsplit : py_split s = (⟨tok⟩ : String) :: toks.map (fun l => ⟨l⟩) := by
    simp [py_split, heq]
  obtain ⟨rest, hdata⟩ := joinSpace_cons_data (⟨tok⟩ : String) (toks.map (fun l => ⟨l⟩))
  apply ne_empty_of_data
  show (joinSpace (py_split s)).data ≠ []
  rw [hsplit, hdata]
  intro hcon
  exact htok (List.append_eq_nil.mp hcon).1

theorem normalize_ws_has_char {s : String} (hne : normalize_ws s ≠ "") :
    ∃ ch ∈ (normalize_ws s).data, ch.isWhitespace = false := by
  cases heq : splitWsAux s.data [] with
  | nil =>
    exfalso
    apply hne
    show joinSpace (py_split s) = ""
    simp [py_split, heq, joinSpace]
  | cons tok toks =>
    have htok : tok ≠ [] := splitWsAux_mem_ne_nil s.data [] tok (by rw [heq]; simp)
    obtain ⟨ch, tok₁, rfl⟩ := List.exists_cons_of_ne_nil htok
    have hsplit : py_split s = (⟨ch :: tok₁⟩ : String) :: toks.map (fun l => ⟨l⟩) := by
      simp [py_split, heq]
    obtain ⟨rest, hdata⟩ := joinSpace_cons_data (⟨ch :: tok₁⟩ : String)
      (toks.map (fun l => ⟨l⟩))
    refine ⟨ch, ?_, ?_⟩
    · show ch ∈ (joinSpace (py_split s)).data
      rw [hsplit, hdata]
      exact List.mem_append_left _ (List.mem_cons_self _ _)
    · exact splitWsAux_mem_not_ws s.data [] (by simp) (ch :: tok₁)
        (by rw [heq]; simp) ch (List.mem_cons_self _ _)

theorem mem_dropWhile_of_not {p : Char → Bool} :
    ∀ (l : List Char) (x : Char), x ∈ l → p x = false → x ∈ l.dropWhile p := by
  intro l
  induction l with
  | nil => intro x hx; cases hx
  | cons c rest ih =>
    intro x hx hpx
    rcases List.mem_cons.mp hx with rfl | hx
    · rw [List.dropWhile_cons, hpx]
      simp
    · rw [List.dropWhile_cons]
      cases hpc : p c with
      | true => simpa using ih x hx hpx
      | false => simp [hx]

theorem py_strip_ne_empty {s : String}
    (hch : ∃ ch ∈ s.data, ch.isWhitespace = false) : py_strip s ≠ "" := by
  obtain ⟨ch, hmem, hws⟩ := hch
  apply ne_empty_of_data
  show ((((s.data.dropWhile Char.isWhitespace).reverse).dropWhile
    Char.isWhitespace).reverse) ≠ []
  have h₁ : ch ∈ s.data.dropWhile Char.isWhitespace :=
    mem_dropWhile_of_not s.data ch hmem hws
  have h₂ : ch ∈ (s.data.dropWhile Char.isWhitespace).reverse :=
    List.mem_reverse.mpr h₁
  have h₃ : ch ∈ ((s.data.dropWhile Char.isWhitespace).reverse).dropWhile
      Char.isWhitespace := mem_dropWhile_of_not _ ch h₂ hws
  exact List.ne_nil_of_mem (List.mem_reverse.mpr h₃)

/-! ### Lemmas about the candidate de-duplication -/

theorem dedup_aux_sublist :
    ∀ (cs seen : List String),
      List.Sublist (dedup_aux seen cs) (cs.map normalize_ws) := by
  intro cs
  induction cs with
  | nil => intro seen; simp [dedup_aux]
  | cons c rest ih =>
    intro seen
    simp only [dedup_aux, List.map_cons]
    split
    · exact (ih (normalize_ws c :: seen)).cons₂ _
    · exact (ih seen).cons _

theorem dedup_aux_mem :
    ∀ (cs seen : List String) (x : String), x ∈ dedup_aux seen cs →
      x ≠ "" ∧ ∃ c ∈ cs, x = normalize_ws c := by
  intro cs
  induction cs with
  | nil => intro seen x hx; cases hx
  | cons c rest ih =>
    intro seen x hx
    simp only [dedup_aux] at hx
    split at hx
    · next hcond =>
      rcases List.mem_cons.mp hx with rfl | hx
      · exact ⟨hcond.1, c, List.mem_cons_self _ _, rfl⟩
      · obtain ⟨hne, c₁, hc₁, hx₁⟩ := ih (normalize_ws c :: seen) x hx
        exact ⟨hne, c₁, List.mem_cons_of_mem _ hc₁, hx₁⟩
    · obtain ⟨hne, c₁, hc₁, hx₁⟩ := ih seen x hx
      exact ⟨hne, c₁, List.mem_cons_of_mem _ hc₁, hx₁⟩

theorem dedup_aux_not_seen :
    ∀ (cs seen : List String) (x : String), x ∈ dedup_aux seen cs → x ∉ seen := by
  intro cs
  induction cs with
  | nil => intro seen x hx; cases hx
  | cons c rest ih =>
    intro seen x hx
    simp only [dedup_aux] at hx
    split at hx
    · next hcond =>
      rcases List.mem_cons.mp hx with rfl | hx
      · exact hcond.2
      · intro hxs
        exact ih (normalize_ws c :: seen) x hx (List.mem_cons_of_mem _ hxs)
    · exact ih seen x hx

theorem dedup_aux_nodup :
    ∀ (cs seen : List String), (dedup_aux seen cs).Nodup := by
  intro cs
  induction cs with
  | nil => intro seen; simp [dedup_aux]
  | cons c rest ih =>
    intro seen
    simp only [dedup_aux]
    split
    · refine List.Nodup.cons ?_ (ih (normalize_ws c :: seen))
      intro hmem
      exact dedup_aux_not_seen rest (normalize_ws c :: seen) _ hmem
        (List.mem_cons_self _ _)
    · exact ih seen

theorem dedup_aux_complete :
    ∀ (cs seen : List String) (c : String), c ∈ cs → normalize_ws c ≠ "" →
      normalize_ws c ∈ seen ∨ normalize_ws c ∈ dedup_aux seen cs := by
  intro cs
  induction cs with
  | nil => intro seen c hc; cases hc
  | cons c₀ rest ih =>
    intro seen c hc hne
    simp only [dedup_aux]
    rcases List.mem_cons.mp hc with rfl | hc
    · split
      · exact Or.inr (List.mem_cons_self _ _)
      · next hcond =>
        rw [not_and_or] at hcond
        rcases hcond with hcond | hcond
        · exact absurd hne (by simpa using hcond)
        · exact Or.inl (by simpa using hcond)
    · split
      · rcases ih (normalize_ws c₀ :: seen) c hc hne with hin | hin
        · rcases List.mem_cons.mp hin with heq | hin
          · exact Or.inr (heq ▸ List.mem_cons_self _ _)
          · exact Or.inl hin
        · exact Or.inr (List.mem_cons_of_mem _ hin)
      · exact ih seen c hc hne

theorem main_loop_extends (md5hex : String → String) (net : Net)
    (has_latlon : Bool) :
    ∀ (rows : List Row) (cache : CrabCache) (fs : List Feature)
      (cache₁ : CrabCache) (evs : List Ev),
      main_loop md5hex net has_latlon rows cache = .ok (fs, cache₁, evs) →
      cacheExtends cache cache₁ := by
  intro rows
  induction rows with
  | nil =>
    intro cache fs cache₁ evs h
    simp only [main_loop, Except.ok.injEq, Prod.mk.injEq] at h
    obtain ⟨-, rfl, -⟩ := h
    exact cacheExtends_refl cache
  | cons r rs ih =>
    intro cache fs cache₁ evs h
    simp only [main_loop] at h
    split at h
    · exact absurd h (by simp)
    · next fs₂ cache₂ evs₂ hpr =>
      split at h
      · exact absurd h (by simp)
      · next fs₃ cache₃ evs₃ hrec =>
        simp only [Except.ok.injEq, Prod.mk.injEq] at h
        obtain ⟨-, rfl, -⟩ := h
        exact cacheExtends_trans
          (process_row_extends md5hex net has_latlon r cache fs₂ cache₂ evs₂ hpr)
          (ih cache₂ fs₃ _ evs₃ hrec)

/-- A cached key for the first non-blank candidate makes the fallback
resolver return the cached value with no network traffic and no cache
change. -/
theorem fallbacks_cache_hit (md5hex : String → String) (net : Net) :
    ∀ (cands : List String) (cache : CrabCache) (q : String)
      (v : Option CrabResult),
      first_nonblank cands = some q →
      dictGet (cache_key md5hex q "DE_VIEWBOX_US") cache = some v →
      geocode_with_fallbacks md5hex net cands cache = .ok (v, cache, []) := by
  intro cands
  induction cands with
  | nil => intro cache q v h₁ _; cases h₁
  | cons q₀ rest ih =>
    intro cache q v h₁ h₂
    simp only [first_nonblank] at h₁
    split at h₁
    · next hq =>
      simp only [geocode_with_fallbacks, if_pos hq]
      exact ih cache q v h₁ h₂
    · next hq =>
      injection h₁ with hq₀
      subst hq₀
      simp only [geocode_with_fallbacks, if_neg hq, h₂]

/-- The clamming geocode returns a cached value with no network traffic
and no cache change. -/
theorem geocode_cache_hit (md5hex : String → String) (net : Net)
    (query : String) (ccache : ClamCache) (w : Option GeoResult)
    (h : dictGet (md5hex query) ccache = some w) :
    geocode md5hex net query ccache = .ok (w, ccache, []) := by
  simp only [geocode, h]

/-! ### The claims -/

/-- Claim C1: when the first non-blank candidate of the fallback chain
has its cache key present in the cache, the resolver returns that cached
value (a result record or the confirmed-absent None marker) immediately,
with no network call for it or any later candidate and no cache change;
likewise the clamming single-query geocode returns a cached value with no
network call.  In particular a key cached as "not found" never triggers a
new network call. -/
theorem C1_cache_hit_short_circuits (md5hex : String → String)
    (net netc : Net) (cands : List String) (cache : CrabCache) (q : String)
    (v : Option CrabResult) (query : String) (ccache : ClamCache)
    (w : Option GeoResult)
    (h₁ : first_nonblank cands = some q)
    (h₂ : dictGet (cache_key md5hex q "DE_VIEWBOX_US") cache = some v)
    (h₃ : dictGet (md5hex query) ccache = some w) :
    geocode_with_fallbacks md5hex net cands cache = .ok (v, cache, [])
    ∧ geocode md5hex netc query ccache = .ok (w, ccache, []) :=
  ⟨fallbacks_cache_hit md5hex net cands cache q v h₁ h₂,
   geocode_cache_hit md5hex netc query ccache w h₃⟩

theorem C1_cache_hit_short_circuits_witness :
    first_nonblank ["", " A "] = some "A"
    ∧ dictGet (cache_key idHash "A" "DE_VIEWBOX_US")
        [("A|DE_VIEWBOX_US", (none : Option CrabResult))] = some none
    ∧ geocode_with_fallbacks idHash netErr ["", " A "]
        [("A|DE_VIEWBOX_US", (none : Option CrabResult))] =
      .ok (none, [("A|DE_VIEWBOX_US", none)], [])
    ∧ geocode idHash netErr "Q" [("Q", some (⟨1, 2, "d"⟩ : GeoResult))] =
      .ok (some ⟨1, 2, "d"⟩, [("Q", some ⟨1, 2, "d"⟩)], []) :=
  ⟨rfl, rfl,
   (C1_cache_hit_short_circuits idHash netErr netErr ["", " A "]
     [("A|DE_VIEWBOX_US", none)] "A" none "Q"
     [("Q", some ⟨1, 2, "d"⟩)] (some ⟨1, 2, "d"⟩) rfl rfl rfl).1,
   (C1_cache_hit_short_circuits idHash netErr netErr ["", " A "]
     [("A|DE_VIEWBOX_US", none)] "A" none "Q"
     [("Q", some ⟨1, 2, "d"⟩)] (some ⟨1, 2, "d"⟩) rfl rfl rfl).2⟩

/-- Claim C2: the fallback resolver tries uncached candidates in order
(the attempted queries are a sublist of the stripped candidate sequence,
each uncached at attempt time), caches exactly what the client returned
for every attempted candidate including the "not found" marker, every
attempt before the last returned "not found" (so the first success stops
the run), and a returned record is the one cached under the key of the
candidate that produced it. -/
theorem C2_fallback_resolution (md5hex : String → String) (net : Net)
    (cands : List String) (cache : CrabCache) (res : Option CrabResult)
    (cache₁ : CrabCache) (qs : List String)
    (h : geocode_with_fallbacks md5hex net cands cache = .ok (res, cache₁, qs)) :
    List.Sublist qs (cands.map py_strip)
    ∧ (∀ q ∈ qs, dictGet (cache_key md5hex q "DE_VIEWBOX_US") cache = none)
    ∧ (∀ q ∈ qs, ∃ d, net q = .ok d ∧
        dictGet (cache_key md5hex q "DE_VIEWBOX_US") cache₁ = some (mkVal q d))
    ∧ (∀ q ∈ qs.dropLast, net q = .ok none)
    ∧ (∀ out, res = some out → ∃ c ∈ cands,
        dictGet (cache_key md5hex (py_strip c) "DE_VIEWBOX_US") cache₁ =
          some (some out)) :=
  fallbacks_run md5hex net cands cache res cache₁ qs h

theorem C2_fallback_resolution_witness :
    geocode_with_fallbacks idHash net3 [" A ", "", "A, DE"] [] =
      .ok (some ⟨39, -753/10, "Dover, Delaware", "A, DE"⟩,
           [("A|DE_VIEWBOX_US", none),
            ("A, DE|DE_VIEWBOX_US",
             some ⟨39, -753/10, "Dover, Delaware", "A, DE"⟩)],
           ["A", "A, DE"])
    ∧ (List.Sublist ["A", "A, DE"] ([" A ", "", "A, DE"].map py_strip)
      ∧ (∀ q ∈ ["A", "A, DE"],
          dictGet (cache_key idHash q "DE_VIEWBOX_US") ([] : CrabCache) = none)
      ∧ (∀ q ∈ ["A", "A, DE"], ∃ d, net3 q = .ok d ∧
          dictGet (cache_key idHash q "DE_VIEWBOX_US")
            [("A|DE_VIEWBOX_US", none),
             ("A, DE|DE_VIEWBOX_US",
              some ⟨39, -753/10, "Dover, Delaware", "A, DE"⟩)] = some (mkVal q d))
      ∧ (∀ q ∈ (["A", "A, DE"] : List String).dropLast, net3 q = .ok none)
      ∧ (∀ out : CrabResult,
          (some ⟨39, -753/10, "Dover, Delaware", "A, DE"⟩ : Option CrabResult) =
            some out →
          ∃ c ∈ [" A ", "", "A, DE"],
            dictGet (cache_key idHash (py_strip c) "DE_VIEWBOX_US")
              [("A|DE_VIEWBOX_US", none),
               ("A, DE|DE_VIEWBOX_US",
                some ⟨39, -753/10, "Dover, Delaware", "A, DE"⟩)] =
              some (some out))) :=
  ⟨rfl, C2_fallback_resolution idHash net3 [" A ", "", "A, DE"] [] _ _ _ rfl⟩

/-- Claim C3 is refuted by the code: the crabbing script sleeps once per
resolution attempt, in the row loop, not after each network call.  On a
row whose fallback chain makes two network calls, the trace contains the
two calls back to back with no sleep between them (so the provider is
invoked twice within the same second), and on a pure cache hit the 1.1
second sleep still happens even though no network call was made. -/
theorem C3_sleep_misplacement :
    (main_loop idHash net3 false [r3] []).map (fun x => x.2.2) =
      .ok [Ev.netCall "A", Ev.netCall "A, DE", Ev.sleep (11/10)]
    ∧ (main_loop idHash net3 false [r3] cacheHit).map (fun x => x.2.2) =
      .ok [Ev.sleep (11/10)] :=
  ⟨rfl, rfl⟩

/-- Claim C4: candidate generation is a pure function of the two name
fields that emits the raw name, its DE/Delaware qualified forms, the site
name with the same qualifiers and the Pier/Bridge-stripped variants (the
fixed emission order of raw_candidates), de-duplicates preserving
first-seen order (the output is a duplicate-free, order-preserving
sublist of the normalized emission sequence and every emission with
non-blank normalization survives), normalizes internal whitespace, and on
geocode-name "Smith Pier" with site-name "Smith Landing" produces the
fixed duplicate-free sequence below. -/
theorem C4_candidate_generation (g s r : String)
    (hr : r ∈ raw_candidates g s) (hne : normalize_ws r ≠ "") :
    (build_candidates g s).Nodup
    ∧ List.Sublist (build_candidates g s) ((raw_candidates g s).map normalize_ws)
    ∧ normalize_ws r ∈ build_candidates g s
    ∧ (∀ x ∈ build_candidates g s, x ≠ "" ∧
        ∃ c ∈ raw_candidates g s, x = normalize_ws c)
    ∧ build_candidates "Smith Pier" "Smith Landing" =
      ["Smith Pier", "Smith Pier, DE", "Smith Pier, Delaware",
       "Smith Landing, DE", "Smith Landing, Delaware", "Smith",
       "Smith Landing"] := by
  refine ⟨dedup_aux_nodup _ _, dedup_aux_sublist _ _, ?_,
    fun x hx => dedup_aux_mem _ _ x hx, by decide⟩
  rcases dedup_aux_complete (raw_candidates g s) [] r hr hne with h | h
  · cases h
  · exact h

theorem C4_candidate_generation_witness :
    ("Smith Pier" ∈ raw_candidates "Smith Pier" "Smith Landing"
      ∧ normalize_ws "Smith Pier" ≠ "")
    ∧ (build_candidates "Smith Pier" "Smith Landing").Nodup
    ∧ "Smith Pier" ∈ build_candidates "Smith Pier" "Smith Landing"
    ∧ build_candidates "Smith Pier" "Smith Landing" =
      ["Smith Pier", "Smith Pier, DE", "Smith Pier, Delaware",
       "Smith Landing, DE", "Smith Landing, Delaware", "Smith",
       "Smith Landing"] :=
  ⟨⟨by decide, by decide⟩,
   (C4_candidate_generation "Smith Pier" "Smith Landing" "Smith Pier"
     (by decide) (by decide)).1,
   (C4_candidate_generation "Smith Pier" "Smith Landing" "Smith Pier"
     (by decide) (by decide)).2.2.1,
   (C4_candidate_generation "Smith Pier" "Smith Landing" "Smith Pier"
     (by decide) (by decide)).2.2.2.2⟩

/-- Claim C5: a crabbing row whose manual lat/lon cells are both present
and parseable produces its two features directly from them, with the
cache returned unchanged and an empty event trace (no network call, no
sleep, no cache write); a row with a malformed manual cell behaves
exactly like the same row with both manual cells absent, falling through
to candidate resolution instead of failing. -/
theorem C5_manual_coordinates (md5hex : String → String) (net : Net)
    (has_latlon : Bool) (r : Row) (cache : CrabCache) (a b : ℚ) :
    (manual_coords has_latlon r.latc r.lonc = some (a, b) →
      process_row md5hex net has_latlon r cache =
        .ok (row_features (py_strip r.zone_id) (py_strip r.zone_name)
          (py_strip r.site_name) a b, cache, []))
    ∧ ((r.latc = Cell.bad ∨ r.lonc = Cell.bad) →
      process_row md5hex net has_latlon r cache =
        process_row md5hex net has_latlon
          { r with latc := Cell.na, lonc := Cell.na } cache) := by
  constructor
  · intro hm
    simp only [process_row, hm]
  · intro hbad
    have h₁ : manual_coords has_latlon r.latc r.lonc = none := by
      cases has_latlon with
      | false => rfl
      | true =>
        rcases hbad with hb | hb
        · rw [hb]; cases r.lonc <;> rfl
        · rw [hb]; cases r.latc <;> rfl
    have h₂ : manual_coords has_latlon Cell.na Cell.na = none := by
      cases has_latlon <;> rfl
    simp only [process_row, h₁, h₂]

theorem C5_manual_coordinates_witness :
    manual_coords true r5a.latc r5a.lonc = some (39, -753/10)
    ∧ process_row idHash netErr true r5a [] =
      .ok (row_features (py_strip r5a.zone_id) (py_strip r5a.zone_name)
        (py_strip r5a.site_name) 39 (-753/10), [], [])
    ∧ (r5b.latc = Cell.bad ∨ r5b.lonc = Cell.bad)
    ∧ process_row idHash netErr true r5b [] =
      process_row idHash netErr true
        { r5b with latc := Cell.na, lonc := Cell.na } [] :=
  ⟨rfl,
   (C5_manual_coordinates idHash netErr true r5a [] 39 (-753/10)).1 rfl,
   Or.inl rfl,
   (C5_manual_coordinates idHash netErr true r5b [] 0 0).2 (Or.inl rfl)⟩

/-- Claim C6: in both scripts, every row contributes either nothing (an
unresolved site) or exactly its polygon-then-point feature pair sharing
the zone id, zone name and site name; the output feature list is the
concatenation of those per-row contributions in row-processing order, and
its length is exactly twice the number of resolved rows. -/
theorem C6_feature_assembly (md5hex : String → String) (netc netk : Net)
    (has_latlon : Bool) (rows rows₂ : List Row) (cache0 : CrabCache)
    (ccache0 : ClamCache) (fs fs₂ : List Feature) (c₁ : CrabCache)
    (c₂ : ClamCache) (tr tr₂ : List Ev)
    (hc : main_loop md5hex netc has_latlon rows cache0 = .ok (fs, c₁, tr))
    (hk : clam_main_loop md5hex netk rows₂ ccache0 = .ok (fs₂, c₂, tr₂)) :
    (∃ rf : List (List Feature), List.Forall₂ perRowOk rows rf
      ∧ fs = rf.flatten
      ∧ fs.length = 2 * rf.countP (fun l => !l.isEmpty))
    ∧ (∃ rf₂ : List (List Feature), List.Forall₂ perRowOk rows₂ rf₂
      ∧ fs₂ = rf₂.flatten
      ∧ fs₂.length = 2 * rf₂.countP (fun l => !l.isEmpty))
    ∧ (∀ (zi zn sn : String) (la lo : ℚ),
        (row_features zi zn sn la lo).length = 2
        ∧ row_features zi zn sn la lo =
          [⟨zi, zn, sn, ("polygon_id", "A"),
            Geometry.polygon [square_polygon_d la lo]⟩,
           ⟨zi, zn, sn, ("feature_type", "site_point"),
            Geometry.point (lo, la)⟩]) :=
  ⟨main_loop_shape md5hex netc has_latlon rows cache0 fs c₁ tr hc,
   clam_loop_shape md5hex netk rows₂ ccache0 fs₂ c₂ tr₂ hk,
   fun _ _ _ _ _ => ⟨rfl, rfl⟩⟩

theorem C6_feature_assembly_witness :
    main_loop idHash net3 false [r3] [] =
      .ok (row_features "Z1" "North Bay" "B" 39 (-753/10),
           [("A|DE_VIEWBOX_US", none),
            ("A, DE|DE_VIEWBOX_US",
             some ⟨39, -753/10, "Dover, Delaware", "A, DE"⟩)],
           [Ev.netCall "A", Ev.netCall "A, DE", Ev.sleep (11/10)])
    ∧ clam_main_loop idHash netNone [r3] [] =
      .ok ([], [("A, Delaware, USA", none)],
           [Ev.netCall "A, Delaware, USA", Ev.sleep (11/10)])
    ∧ (∃ rf : List (List Feature), List.Forall₂ perRowOk [r3] rf
      ∧ row_features "Z1" "North Bay" "B" 39 (-753/10) = rf.flatten
      ∧ (row_features "Z1" "North Bay" "B" 39 (-753/10)).length =
          2 * rf.countP (fun l => !l.isEmpty))
    ∧ (∃ rf₂ : List (List Feature), List.Forall₂ perRowOk [r3] rf₂
      ∧ ([] : List Feature) = rf₂.flatten
      ∧ ([] : List Feature).length = 2 * rf₂.countP (fun l => !l.isEmpty)) :=
  ⟨rfl, rfl,
   (C6_feature_assembly idHash net3 netNone false [r3] [r3] [] []
     (row_features "Z1" "North Bay" "B" 39 (-753/10)) [] _ _ _ _
     rfl rfl).1,
   (C6_feature_assembly idHash net3 netNone false [r3] [r3] [] []
     (row_features "Z1" "North Bay" "B" 39 (-753/10)) [] _ _ _ _
     rfl rfl).2.1⟩

/-- Claim C7: for every resolved coordinate the polygon ring has exactly
five [longitude, latitude] points with first and last identical, and is
the axis-aligned rectangle with half-extents 0.01 in latitude and 0.015
in longitude centred on the coordinate; the accompanying point geometry
is exactly [lon, lat]; at latitude 39 and longitude -75.3 the corners are
(-75.315, 38.99), (-75.285, 38.99), (-75.285, 39.01), (-75.315, 39.01). -/
theorem C7_polygon_geometry (lat lon : ℚ) :
    (square_polygon_d lat lon).length = 5
    ∧ (square_polygon_d lat lon).head? = some (lon - 15/1000, lat - 1/100)
    ∧ (square_polygon_d lat lon).getLast? = (square_polygon_d lat lon).head?
    ∧ square_polygon_d lat lon =
      [(lon - 15/1000, lat - 1/100), (lon + 15/1000, lat - 1/100),
       (lon + 15/1000, lat + 1/100), (lon - 15/1000, lat + 1/100),
       (lon - 15/1000, lat - 1/100)]
    ∧ (∀ zi zn sn : String, ∃ f₁ f₂ : Feature,
        row_features zi zn sn lat lon = [f₁, f₂]
        ∧ f₁.geometry = Geometry.polygon [square_polygon_d lat lon]
        ∧ f₂.geometry = Geometry.point (lon, lat))
    ∧ square_polygon_d 39 (-753/10) =
      [(-75315/1000, 3899/100), (-75285/1000, 3899/100),
       (-75285/1000, 3901/100), (-75315/1000, 3901/100),
       (-75315/1000, 3899/100)] := by
  refine ⟨rfl, rfl, rfl, rfl, fun zi zn sn => ⟨_, _, rfl, rfl, rfl⟩, ?_⟩
  norm_num [square_polygon_d, square_polygon, Prod.ext_iff]

/-- Claim C8: the cache only grows: a successful run of either resolver,
or of the whole crabbing row loop, preserves every existing binding with
its value (nothing is removed or overwritten) and any binding present
afterwards either existed before with the same value or is for a key
that was previously absent. -/
theorem C8_cache_monotone (md5hex : String → String) (net netc : Net)
    (cands : List String) (cache : CrabCache) (res : Option CrabResult)
    (cache₁ : CrabCache) (qs : List String) (query : String)
    (ccache : ClamCache) (cres : Option GeoResult) (ccache₁ : ClamCache)
    (cqs : List String) (has_latlon : Bool) (rows : List Row)
    (mcache : CrabCache) (fs : List Feature) (mcache₁ : CrabCache)
    (evs : List Ev)
    (h₁ : geocode_with_fallbacks md5hex net cands cache = .ok (res, cache₁, qs))
    (h₂ : geocode md5hex netc query ccache = .ok (cres, ccache₁, cqs))
    (h₃ : main_loop md5hex net has_latlon rows mcache = .ok (fs, mcache₁, evs)) :
    (cacheExtends cache cache₁ ∧ addsOnly cache cache₁)
    ∧ (cacheExtends ccache ccache₁ ∧ addsOnly ccache ccache₁)
    ∧ (cacheExtends mcache mcache₁ ∧ addsOnly mcache mcache₁) := by
  have e₁ := fallbacks_extends md5hex net cands cache res cache₁ qs h₁
  have e₂ := geocode_extends md5hex netc query ccache cres ccache₁ cqs h₂
  have e₃ := main_loop_extends md5hex net has_latlon rows mcache fs mcache₁ evs h₃
  exact ⟨⟨e₁, extends_addsOnly e₁⟩, ⟨e₂, extends_addsOnly e₂⟩,
    ⟨e₃, extends_addsOnly e₃⟩⟩

theorem C8_cache_monotone_witness :
    geocode_with_fallbacks idHash net3 ["A"] cacheHit =
      .ok (some ⟨39, -753/10, "Dover, Delaware", "A"⟩, cacheHit, [])
    ∧ geocode idHash netNone "Q" [("Q", some (⟨1, 2, "d"⟩ : GeoResult))] =
      .ok (some ⟨1, 2, "d"⟩, [("Q", some ⟨1, 2, "d"⟩)], [])
    ∧ main_loop idHash net3 false [r3] [] =
      .ok (row_features "Z1" "North Bay" "B" 39 (-753/10),
           [("A|DE_VIEWBOX_US", none),
            ("A, DE|DE_VIEWBOX_US",
             some ⟨39, -753/10, "Dover, Delaware", "A, DE"⟩)],
           [Ev.netCall "A", Ev.netCall "A, DE", Ev.sleep (11/10)])
    ∧ (cacheExtends cacheHit cacheHit ∧ addsOnly cacheHit cacheHit)
    ∧ cacheExtends ([] : CrabCache)
        [("A|DE_VIEWBOX_US", none),
         ("A, DE|DE_VIEWBOX_US",
          some ⟨39, -753/10, "Dover, Delaware", "A, DE"⟩)] :=
  ⟨rfl, rfl, rfl,
   (C8_cache_monotone idHash net3 netNone ["A"] cacheHit _ _ _ "Q"
     [("Q", some ⟨1, 2, "d"⟩)] _ _ _ false [r3] [] _ _ _
     rfl rfl rfl).1,
   (C8_cache_monotone idHash net3 netNone ["A"] cacheHit _ _ _ "Q"
     [("Q", some ⟨1, 2, "d"⟩)] _ _ _ false [r3] [] _ _ _
     rfl rfl rfl).2.2.1⟩

/-- Claim C9: if any network request raises a transport/HTTP error the
run terminates with that error propagating uncaught and the persisted
cache file keeps its prior content, so entries accumulated during the
run are saved only on normal completion.  Stated generally: (a) every
failing run leaves the file untouched and owes its error to an actual
network request; (b) within one fallback chain, an error raised after
any number of not-found attempts (a prefix exhausted without success)
propagates out of the resolver; (c) after any prefix of rows has been
processed successfully, accumulating cache entries, an error on a later
row makes the whole run fail and the file keep its prior content. -/
theorem C9_transport_error_fatal (md5hex : String → String) (net : Net)
    (has_latlon : Bool) (rows pre rs : List Row) (preC restC : List String)
    (cache0 cacheA cacheB cache₁ : CrabCache) (fs₁ : List Feature)
    (evs₁ : List Ev) (qsA : List String) (file0 : Option CrabCache)
    (e : String) :
    (main_loop md5hex net has_latlon rows cache0 = .error e →
      run_main md5hex net has_latlon rows cache0 file0 = (file0, .error e)
      ∧ ∃ q, net q = .error e)
    ∧ (geocode_with_fallbacks md5hex net preC cacheA = .ok (none, cacheB, qsA) →
      qsA.length = (preC.filter (fun q => py_strip q ≠ "")).length →
      geocode_with_fallbacks md5hex net restC cacheB = .error e →
      geocode_with_fallbacks md5hex net (preC ++ restC) cacheA = .error e)
    ∧ (main_loop md5hex net has_latlon pre cache0 = .ok (fs₁, cache₁, evs₁) →
      main_loop md5hex net has_latlon rs cache₁ = .error e →
      main_loop md5hex net has_latlon (pre ++ rs) cache0 = .error e
      ∧ run_main md5hex net has_latlon (pre ++ rs) cache0 file0 =
        (file0, .error e)) := by
  refine ⟨fun h => ⟨by simp only [run_main, h],
      main_loop_error_src md5hex net has_latlon rows cache0 e h⟩,
    fallbacks_exhaust_append md5hex net preC cacheA cacheB qsA restC e, ?_⟩
  intro h₁ h₂
  have hml := main_loop_append_error md5hex net has_latlon pre rs cache0
    cache₁ fs₁ evs₁ e h₁ h₂
  exact ⟨hml, by simp only [run_main, hml]⟩

theorem C9_transport_error_fatal_witness :
    main_loop idHash netC9 false [r3] [] =
      .ok (row_features "Z1" "North Bay" "B" 39 (-753/10),
           [("A|DE_VIEWBOX_US", none),
            ("A, DE|DE_VIEWBOX_US",
             some ⟨39, -753/10, "Dover, Delaware", "A, DE"⟩)],
           [Ev.netCall "A", Ev.netCall "A, DE", Ev.sleep (11/10)])
    ∧ main_loop idHash netC9 false [rX]
        [("A|DE_VIEWBOX_US", none),
         ("A, DE|DE_VIEWBOX_US",
          some ⟨39, -753/10, "Dover, Delaware", "A, DE"⟩)] =
      .error "connection refused"
    ∧ main_loop idHash netC9 false ([r3] ++ [rX]) [] =
      .error "connection refused"
    ∧ run_main idHash netC9 false ([r3] ++ [rX]) [] (some cacheHit) =
      (some cacheHit, .error "connection refused")
    ∧ run_main idHash netC9 false [r3, rX] [] (some cacheHit) =
      (some cacheHit, .error "connection refused")
    ∧ (∃ q, netC9 q = .error "connection refused")
    ∧ geocode_with_fallbacks idHash netC9 (["X"] ++ ["X, DE"])
        [("A|DE_VIEWBOX_US", none),
         ("A, DE|DE_VIEWBOX_US",
          some ⟨39, -753/10, "Dover, Delaware", "A, DE"⟩)] =
      .error "connection refused" :=
  ⟨rfl, rfl,
   ((C9_transport_error_fatal idHash netC9 false [r3, rX] [r3] [rX]
     ["X"] ["X, DE"] []
     [("A|DE_VIEWBOX_US", none),
      ("A, DE|DE_VIEWBOX_US",
       some ⟨39, -753/10, "Dover, Delaware", "A, DE"⟩)]
     [("A|DE_VIEWBOX_US", none),
      ("A, DE|DE_VIEWBOX_US",
       some ⟨39, -753/10, "Dover, Delaware", "A, DE"⟩),
      ("X|DE_VIEWBOX_US", none)]
     [("A|DE_VIEWBOX_US", none),
      ("A, DE|DE_VIEWBOX_US",
       some ⟨39, -753/10, "Dover, Delaware", "A, DE"⟩)]
     (row_features "Z1" "North Bay" "B" 39 (-753/10))
     [Ev.netCall "A", Ev.netCall "A, DE", Ev.sleep (11/10)]
     ["X"] (some cacheHit) "connection refused").2.2 rfl rfl).1,
   ((C9_transport_error_fatal idHash netC9 false [r3, rX] [r3] [rX]
     ["X"] ["X, DE"] []
     [("A|DE_VIEWBOX_US", none),
      ("A, DE|DE_VIEWBOX_US",
       some ⟨39, -753/10, "Dover, Delaware", "A, DE"⟩)]
     [("A|DE_VIEWBOX_US", none),
      ("A, DE|DE_VIEWBOX_US",
       some ⟨39, -753/10, "Dover, Delaware", "A, DE"⟩),
      ("X|DE_VIEWBOX_US", none)]
     [("A|DE_VIEWBOX_US", none),
      ("A, DE|DE_VIEWBOX_US",
       some ⟨39, -753/10, "Dover, Delaware", "A, DE"⟩)]
     (row_features "Z1" "North Bay" "B" 39 (-753/10))
     [Ev.netCall "A", Ev.netCall "A, DE", Ev.sleep (11/10)]
     ["X"] (some cacheHit) "connection refused").2.2 rfl rfl).2,
   ((C9_transport_error_fatal idHash netC9 false [r3, rX] [r3] [rX]
     ["X"] ["X, DE"] []
     [("A|DE_VIEWBOX_US", none),
      ("A, DE|DE_VIEWBOX_US",
       some ⟨39, -753/10, "Dover, Delaware", "A, DE"⟩)]
     [("A|DE_VIEWBOX_US", none),
      ("A, DE|DE_VIEWBOX_US",
       some ⟨39, -753/10, "Dover, Delaware", "A, DE"⟩),
      ("X|DE_VIEWBOX_US", none)]
     [("A|DE_VIEWBOX_US", none),
      ("A, DE|DE_VIEWBOX_US",
       some ⟨39, -753/10, "Dover, Delaware", "A, DE"⟩)]
     (row_features "Z1" "North Bay" "B" 39 (-753/10))
     [Ev.netCall "A", Ev.netCall "A, DE", Ev.sleep (11/10)]
     ["X"] (some cacheHit) "connection refused").1 rfl).1,
   ((C9_transport_error_fatal idHash netC9 false [r3, rX] [r3] [rX]
     ["X"] ["X, DE"] []
     [("A|DE_VIEWBOX_US", none),
      ("A, DE|DE_VIEWBOX_US",
       some ⟨39, -753/10, "Dover, Delaware", "A, DE"⟩)]
     [("A|DE_VIEWBOX_US", none),
      ("A, DE|DE_VIEWBOX_US",
       some ⟨39, -753/10, "Dover, Delaware", "A, DE"⟩),
      ("X|DE_VIEWBOX_US", none)]
     [("A|DE_VIEWBOX_US", none),
      ("A, DE|DE_VIEWBOX_US",
       some ⟨39, -753/10, "Dover, Delaware", "A, DE"⟩)]
     (row_features "Z1" "North Bay" "B" 39 (-753/10))
     [Ev.netCall "A", Ev.netCall "A, DE", Ev.sleep (11/10)]
     ["X"] (some cacheHit) "connection refused").1 rfl).2,
   (C9_transport_error_fatal idHash netC9 false [r3, rX] [r3] [rX]
     ["X"] ["X, DE"] []
     [("A|DE_VIEWBOX_US", none),
      ("A, DE|DE_VIEWBOX_US",
       some ⟨39, -753/10, "Dover, Delaware", "A, DE"⟩)]
     [("A|DE_VIEWBOX_US", none),
      ("A, DE|DE_VIEWBOX_US",
       some ⟨39, -753/10, "Dover, Delaware", "A, DE"⟩),
      ("X|DE_VIEWBOX_US", none)]
     [("A|DE_VIEWBOX_US", none),
      ("A, DE|DE_VIEWBOX_US",
       some ⟨39, -753/10, "Dover, Delaware", "A, DE"⟩)]
     (row_features "Z1" "North Bay" "B" 39 (-753/10))
     [Ev.netCall "A", Ev.netCall "A, DE", Ev.sleep (11/10)]
     ["X"] (some cacheHit) "connection refused").2.1 rfl rfl rfl⟩

/-- Claim C10: for every pair of input strings, including blank ones,
candidate generation returns a non-empty list whose elements are all
non-blank (and still non-blank after the stripping the resolver applies),
so the resolver always has at least one candidate to check against the
cache or the provider; with both names blank the qualifier-only
candidates ", DE" and ", Delaware" survive normalization and
de-duplication. -/
theorem C10_candidates_nonempty (g s : String) :
    build_candidates g s ≠ []
    ∧ (∀ x ∈ build_candidates g s, x ≠ "" ∧ py_strip x ≠ "")
    ∧ (∃ q, first_nonblank (build_candidates g s) = some q)
    ∧ build_candidates "" "" = [", DE", ", Delaware"] := by
  have hmem₂ : py_strip g ++ ", DE" ∈ raw_candidates g s := by
    simp [raw_candidates]
  have hnde : normalize_ws (py_strip g ++ ", DE") ≠ "" := by
    apply normalize_ws_ne_empty
    refine ⟨',', ?_, by decide⟩
    rw [data_append]
    exact List.mem_append_right _ (by decide)
  have hne : build_candidates g s ≠ [] := by
    rcases dedup_aux_complete (raw_candidates g s) [] _ hmem₂ hnde with h | h
    · cases h
    · exact List.ne_nil_of_mem h
  have helem : ∀ x ∈ build_candidates g s, x ≠ "" ∧ py_strip x ≠ "" := by
    intro x hx
    obtain ⟨hxne, c, hc, hxc⟩ := dedup_aux_mem (raw_candidates g s) [] x hx
    refine ⟨hxne, ?_⟩
    apply py_strip_ne_empty
    subst hxc
    exact normalize_ws_has_char hxne
  refine ⟨hne, helem, ?_, by decide⟩
  obtain ⟨x, rest, heq⟩ := List.exists_cons_of_ne_nil hne
  have hx : x ∈ build_candidates g s := heq ▸ List.mem_cons_self _ _
  obtain ⟨-, hxs⟩ := helem x hx
  exact ⟨py_strip x, by rw [heq]; simp only [first_nonblank, if_neg hxs]⟩

theorem C10_candidates_nonempty_witness :
    build_candidates "" "" ≠ []
    ∧ (", DE" ∈ build_candidates "" "" → ", DE" ≠ "" ∧ py_strip ", DE" ≠ "")
    ∧ build_candidates "" "" = [", DE", ", Delaware"] :=
  ⟨(C10_candidates_nonempty "" "").1,
   (C10_candidates_nonempty "" "").2.1 ", DE",
   (C10_candidates_nonempty "" "").2.2.2⟩

end Shellfish
